import Mathlib

/-!
# cpp-ping-pong: the bouncing ball of `ping-pong.cpp`

A shallow embedding of `Game::update`, `Input::handle`, `Audio::Audio`,
`Audio::Play` and the loop of `main`, and the properties of the ball that
follow from them.

Numbers.  The coordinates of the ball are C++ `int`s, embedded as `Int`.
The two velocity components are `float`s, and `ball.line += ball.lineSpeed`
is evaluated in `float`: the `int` is converted to `float`, the sum is rounded
to `float`, and the result is converted back to `int`.

`Game::update` is embedded twice.  The first embedding is for the
integer-valued velocities (the program itself only ever stores `1` and `-1`):
such a float is written as the `Int` it is equal to, and `f32` is the rounding
to `float` (IEEE binary32, 24 significant bits, round to nearest, ties to
even) on integers.  It is exact as long as the new coordinates fit an `int`.
The second embedding, in the namespace `Binary32`, is for every value a
`float` can hold, signed zeros, fractions, infinities and NaNs included, and
marks the update undefined where the conversion back to `int` is undefined in
C++.  `Binary32.update_refines` and `Binary32.update_refines_defined` show
that the first embedding is the second one restricted to integer-valued
velocities.
-/

namespace PingPong

/-- Rounding of an integer to the nearest IEEE binary32 value (24-bit
significand, ties to even): what `(float)x` and a `float` addition with exact
sum `x` produce. Integers of magnitude below `2^24` are representable. -/
def f32 (x : Int) : Int :=
  let a := x.natAbs
  if a < 2 ^ 24 then x
  else
    let u := 2 ^ (Nat.log2 a - 23)
    let q := a / u
    let r := a % u
    let q' := if 2 * r < u then q
              else if u < 2 * r then q + 1
              else if q % 2 = 0 then q else q + 1
    Int.sign x * ((q' * u : Nat) : Int)

/-- The compound assignment `i += v` of the source for an `int i` and an
integer-valued `float v`: `i = (int)((float)i + v)`.  Where the result is not
an `int` the source is undefined; `Binary32.addAssign` marks those cases. -/
def addAssign (i v : Int) : Int :=
  f32 (f32 i + v)

/-- The class `Ball`, its two `float` velocity components integer-valued and
written as integers. -/
structure Ball where
  line : Int
  lastLine : Int
  column : Int
  lastColumn : Int
  lineSpeed : Int
  columnSpeed : Int
  deriving DecidableEq, Repr

/-- The default member initialisers of `Ball`. -/
def Ball.init : Ball :=
  { line := 1, lastLine := 1, column := 1, lastColumn := 1,
    lineSpeed := 1, columnSpeed := 1 }

/-- The class `Game`. -/
structure Game where
  ball : Ball
  minRow : Int
  minCol : Int
  maxRow : Int
  maxCol : Int
  ping : Bool
  deriving DecidableEq, Repr

/-- The constructor `Game::Game`: `ws_row` and `ws_col` are what the `ioctl`
reports; `ping` has no initialiser, its first value `ping0` is arbitrary. -/
def Game.init (ws_row ws_col : Int) (ping0 : Bool) : Game :=
  { ball := Ball.init, minRow := 1, minCol := 1,
    maxRow := ws_row, maxCol := ws_col, ping := ping0 }

/-- The method `Game::update`. -/
def Game.update (g : Game) : Game :=
  let lastLine := g.ball.line
  let lastColumn := g.ball.column
  let line := addAssign g.ball.line g.ball.lineSpeed
  let column := addAssign g.ball.column g.ball.columnSpeed
  let topOrBottom := line == g.maxRow || line == g.minRow
  let lineSpeed := if topOrBottom then g.ball.lineSpeed * -1 else g.ball.lineSpeed
  let leftOrRight := column == g.maxCol || column == g.minCol
  let columnSpeed := if leftOrRight then g.ball.columnSpeed * -1 else g.ball.columnSpeed
  { g with
    ball := { line := line, lastLine := lastLine, column := column,
              lastColumn := lastColumn, lineSpeed := lineSpeed,
              columnSpeed := columnSpeed }
    ping := topOrBottom || leftOrRight }

/-- The game after `n` successive calls of `Game::update`. -/
def Game.updateN : Nat → Game → Game
  | 0, g => g
  | n + 1, g => (Game.updateN n g).update

/-- The enumeration `ProgramState`. -/
inductive ProgramState where
  | Continue
  | Stop
  deriving DecidableEq, Repr

/-- The method `Input::handle`; `c` is the value `getch()` returns in this
call (`-1`, the `ERR` of curses, when no key is pending).  The game is passed
by reference, so it is returned with the result. -/
def Input.handle (game : Game) (c : Int) : ProgramState × Game :=
  if c = 27 then (ProgramState.Stop, game)
  else (ProgramState.Continue, game)

/-- A `Mix_Chunk*`: `0` is the null pointer `Mix_LoadWAV` returns on failure,
any other value is a loaded sample. -/
abbrev MixChunkPtr := Nat

/-- The class `Audio`: the vector `pings`. -/
structure Audio where
  pings : List MixChunkPtr
  deriving DecidableEq, Repr

/-- The constructor `Audio::Audio`; `err` is the result of `Mix_OpenAudio`,
`wav1`, `wav2`, `wav3` are the results of the three `Mix_LoadWAV` calls.  A
nonzero `err` is thrown. -/
def Audio.ctor (err : Int) (wav1 wav2 wav3 : MixChunkPtr) : Except Int Audio :=
  if err ≠ 0 then Except.error err
  else
    let pings : List MixChunkPtr := []
    let pings := pings ++ [wav1]
    let pings := pings ++ [wav2]
    let pings := pings ++ [wav3]
    Except.ok { pings := pings }

/-- A call `Mix_PlayChannel(channel, chunk, loops)`. -/
structure PlayChannel where
  channel : Int
  chunk : MixChunkPtr
  loops : Int
  deriving DecidableEq, Repr

/-- The method `Audio::Play`; `r` is the value `std::rand()` returns in this
call.  The result is `none` where the source has no defined behaviour (a
remainder by zero, an index outside the vector), and otherwise the audio
object after the call with the playbacks the call triggered. -/
def Audio.Play (a : Audio) (r : Nat) : Option (Audio × List PlayChannel) :=
  if a.pings.length = 0 then none
  else
    let pingIndex := r % a.pings.length
    match a.pings[pingIndex]? with
    | none => none
    | some p =>
      if p = 0 then some (a, [])
      else some (a, [{ channel := -1, chunk := p, loops := 0 }])

/-- The calls one iteration of the loop of `main` makes, in order. -/
inductive Call where
  | limit
  | handle
  | update
  | Play
  | draw (ball : Ball)
  deriving DecidableEq, Repr

/-- One iteration of the `while(1)` loop of `main`: `c` is the key `getch()`
yields in this iteration.  The result is `Stop` when the iteration leaves the
loop by `break` and `Continue` when it reaches the end of the body, with the
game after the iteration and the calls made. -/
def mainLoopBody (game : Game) (c : Int) : ProgramState × Game × List Call :=
  let calls := [Call.limit]
  let (state, game) := Input.handle game c
  let calls := calls ++ [Call.handle]
  if state = ProgramState.Stop then (ProgramState.Stop, game, calls)
  else
    let game := game.update
    let calls := calls ++ [Call.update]
    let calls := if game.ping then calls ++ [Call.Play] else calls
    let calls := calls ++ [Call.draw game.ball]
    (ProgramState.Continue, game, calls)

/-! ## Predicates and states used in the statements -/

/-- The state of one axis of a ball of speed one: moving up below `hi`, or
moving down above `1`. -/
def Bouncing (hi x v : Int) : Prop :=
  (v = 1 ∧ 1 ≤ x ∧ x < hi ∧ x ≤ 16777216) ∨ (v = -1 ∧ 1 < x ∧ x ≤ hi ∧ x ≤ 16777216)

instance (hi x v : Int) : Decidable (Bouncing hi x v) := by
  unfold Bouncing
  infer_instance

/-- The state of one axis of a ball of speed two that started on an odd
coordinate: on an odd coordinate from `lo` on, or beyond `2^24`. -/
def Overshot (lo x : Int) : Prop :=
  (x % 2 = 1 ∧ lo ≤ x ∧ x < 16777216) ∨ 16777216 ≤ x

instance (lo x : Int) : Decidable (Overshot lo x) := by
  unfold Overshot
  infer_instance

/-- A game in a 24 × 80 viewport whose ball is on line `2^24`, moving down
by one line per update. -/
def farBelow : Game :=
  { ball := { line := 16777216, lastLine := 16777215, column := 40, lastColumn := 40,
              lineSpeed := 1, columnSpeed := 0 },
    minRow := 1, minCol := 1, maxRow := 24, maxCol := 80, ping := false }

/-- The game of the overshoot case: bounds `(1, 1, 24, 80)`, the ball at
`(1, 1)` with velocity `(2, 2)`. -/
def overshootStart : Game :=
  { ball := { line := 1, lastLine := 1, column := 1, lastColumn := 1,
              lineSpeed := 2, columnSpeed := 2 },
    minRow := 1, minCol := 1, maxRow := 24, maxCol := 80, ping := false }

/-! ## The velocity as a binary32 value

The definitions above write an integer-valued velocity as an `Int`.  The
namespace `Binary32` embeds `Game::update` once more, for every value a
`float` can hold: the velocity keeps its sign bit (so `0.0f` and `-0.0f`
differ) and may be fractional, infinite or a NaN, and the update is undefined
(`none`) where the conversion of the `float` sum back to `int` is undefined
in C++.  `Binary32.update_refines` relates the two embeddings. -/

namespace Binary32

/-- A value of the C++ type `float` (IEEE binary32): the finite value
`(-1)^sign * m * 2^e`, an infinity, or a NaN.  The values a `float` can hold
are the finite ones with `m < 2^24` and `-149 ≤ e ≤ 104`, the infinities and
the NaNs. -/
inductive Float32 where
  | finite (sign : Bool) (m : Nat) (e : Int)
  | inf (sign : Bool)
  | nan (sign : Bool)
  deriving DecidableEq, Repr

/-- The `float` an integer literal initialises, for the integers that are
`float`s. -/
def Float32.ofInt (k : Int) : Float32 :=
  Float32.finite (decide (k < 0)) k.natAbs 0

/-- The product `v * -1` of the source: `-1` is converted to `-1.0f`, and the
product of a finite or infinite `v` with `-1.0f` is exact: the magnitude of
`v` with the opposite sign bit.  A NaN stays a NaN. -/
def Float32.mulNegOne : Float32 → Float32
  | Float32.finite s m e => Float32.finite (!s) m e
  | Float32.inf s => Float32.inf (!s)
  | Float32.nan s => Float32.nan s

/-- Binary32 rounding (round to nearest, ties to even, gradual underflow) of
the exact magnitude `M * 2^k`: the result is `R * 2^p` for the pair `(R, p)`
returned, where `2^p` is the spacing of the `float`s around the value. -/
def round32 (M : Nat) (k : Int) : Nat × Int :=
  if M = 0 then (0, 0)
  else
    let p := max ((Nat.log2 M : Int) + k - 23) (-149)
    if p ≤ k then (M * 2 ^ (k - p).toNat, p)
    else
      let u := 2 ^ (p - k).toNat
      let q := M / u
      let r := M % u
      let q' := if 2 * r < u then q
                else if u < 2 * r then q + 1
                else if q % 2 = 0 then q else q + 1
      (q', p)

/-- The conversion `(int)f` of the `float` `f = (-1)^sign * R * 2^p`: the
fraction is discarded (truncation towards zero); the conversion is undefined
(`none`) when the truncated value is not an `int` (32 bits). -/
def toInt (sign : Bool) (R : Nat) (p : Int) : Option Int :=
  let t : Nat := if 0 ≤ p then R * 2 ^ p.toNat else R / 2 ^ (-p).toNat
  let i : Int := if sign then -(t : Int) else (t : Int)
  if -2147483648 ≤ i ∧ i ≤ 2147483647 then some i else none

/-- The compound assignment `i += v` of the source for an `int i` and a
`float v`, `i = (int)((float)i + v)`.  `(float)i` is the integer `f32 i`.
With `v = ±m * 2^e` the exact sum is `N * 2^k` for `k = min e 0`; it is
rounded to a `float` and converted to `int`.  With an infinite or NaN `v` the
sum is infinite or a NaN and the conversion is undefined. -/
def addAssign (i : Int) (v : Float32) : Option Int :=
  match v with
  | Float32.nan _ => none
  | Float32.inf _ => none
  | Float32.finite s m e =>
    let a := f32 i
    let k := min e 0
    let N : Int := a * 2 ^ (0 - k).toNat + (if s then -1 else 1) * ((m * 2 ^ (e - k).toNat : Nat) : Int)
    let rp := round32 N.natAbs k
    toInt (decide (N < 0)) rp.1 rp.2

/-- The class `Ball`, with `float` velocity components. -/
structure Ball where
  line : Int
  lastLine : Int
  column : Int
  lastColumn : Int
  lineSpeed : Float32
  columnSpeed : Float32
  deriving DecidableEq, Repr

/-- The default member initialisers of `Ball`. -/
def Ball.init : Ball :=
  { line := 1, lastLine := 1, column := 1, lastColumn := 1,
    lineSpeed := Float32.ofInt 1, columnSpeed := Float32.ofInt 1 }

/-- The class `Game`. -/
structure Game where
  ball : Ball
  minRow : Int
  minCol : Int
  maxRow : Int
  maxCol : Int
  ping : Bool
  deriving DecidableEq, Repr

/-- The constructor `Game::Game`, as `PingPong.Game.init`. -/
def Game.init (ws_row ws_col : Int) (ping0 : Bool) : Game :=
  { ball := Ball.init, minRow := 1, minCol := 1,
    maxRow := ws_row, maxCol := ws_col, ping := ping0 }

/-- The method `Game::update`; `none` when one of the two compound
assignments is undefined. -/
def Game.update (g : Game) : Option Game :=
  let lastLine := g.ball.line
  let lastColumn := g.ball.column
  match addAssign g.ball.line g.ball.lineSpeed,
        addAssign g.ball.column g.ball.columnSpeed with
  | some line, some column =>
    let topOrBottom := line == g.maxRow || line == g.minRow
    let lineSpeed :=
      if topOrBottom then g.ball.lineSpeed.mulNegOne else g.ball.lineSpeed
    let leftOrRight := column == g.maxCol || column == g.minCol
    let columnSpeed :=
      if leftOrRight then g.ball.columnSpeed.mulNegOne else g.ball.columnSpeed
    some { g with
      ball := { line := line, lastLine := lastLine, column := column,
                lastColumn := lastColumn, lineSpeed := lineSpeed,
                columnSpeed := columnSpeed }
      ping := topOrBottom || leftOrRight }
  | _, _ => none

/-- The integer an integer-valued `float` written with a non-negative
exponent is equal to. -/
def Float32.intValue : Float32 → Option Int
  | Float32.finite s m e =>
    if 0 ≤ e then some ((if s then -1 else 1) * ((m * 2 ^ e.toNat : Nat) : Int)) else none
  | Float32.inf _ => none
  | Float32.nan _ => none

/-- The ball with its integer-valued velocity written as integers. -/
def Ball.toIntVelocity (b : Ball) : Option PingPong.Ball :=
  match b.lineSpeed.intValue, b.columnSpeed.intValue with
  | some v, some w =>
    some { line := b.line, lastLine := b.lastLine, column := b.column,
           lastColumn := b.lastColumn, lineSpeed := v, columnSpeed := w }
  | _, _ => none

/-- The game with its integer-valued velocity written as integers. -/
def Game.toIntVelocity (g : Game) : Option PingPong.Game :=
  match g.ball.toIntVelocity with
  | some b =>
    some { ball := b, minRow := g.minRow, minCol := g.minCol,
           maxRow := g.maxRow, maxCol := g.maxCol, ping := g.ping }
  | none => none

/-- The values of the type `int` (32 bits). -/
def InIntRange (i : Int) : Prop :=
  -2147483648 ≤ i ∧ i ≤ 2147483647

instance (i : Int) : Decidable (InIntRange i) := by
  unfold InIntRange
  infer_instance

end Binary32

/-! ## Facts about the rounding -/

theorem log2_16777216 : Nat.log2 16777216 = 24 := by
  have h : (16777216 : Nat) = 2 ^ 24 := by norm_num
  rw [h, Nat.log2_two_pow]

theorem log2_16777217 : Nat.log2 16777217 = 24 := by
  have h1 : 24 ≤ Nat.log2 16777217 := (Nat.le_log2 (by norm_num)).2 (by norm_num)
  have h2 : Nat.log2 16777217 < 25 := (Nat.log2_lt (by norm_num)).2 (by norm_num)
  omega

/-- Integers of magnitude below `2^24` are binary32 values. -/
theorem f32_of_natAbs_lt (x : Int) (h : x.natAbs < 2 ^ 24) : f32 x = x := by
  unfold f32
  exact if_pos h

theorem f32_16777216 : f32 16777216 = 16777216 := by
  have h : Int.natAbs 16777216 = 16777216 := rfl
  have hs : Int.sign 16777216 = 1 := rfl
  simp [f32, h, hs, log2_16777216]

theorem f32_neg_16777216 : f32 (-16777216) = -16777216 := by
  have h : Int.natAbs (-16777216) = 16777216 := rfl
  have hs : Int.sign (-16777216) = -1 := rfl
  simp [f32, h, hs, log2_16777216]

/-- The first integer that is not a binary32 value is rounded down (a tie,
resolved to the even significand). -/
theorem f32_16777217 : f32 16777217 = 16777216 := by
  have h : Int.natAbs 16777217 = 16777217 := rfl
  have hs : Int.sign 16777217 = 1 := rfl
  simp [f32, h, hs, log2_16777217]

/-- Integers of magnitude at most `2^24` are binary32 values. -/
theorem f32_of_abs_le (x : Int) (h1 : -16777216 ≤ x) (h2 : x ≤ 16777216) : f32 x = x := by
  by_cases h : x.natAbs < 2 ^ 24
  · exact f32_of_natAbs_lt x h
  · have h3 : x = 16777216 ∨ x = -16777216 := by omega
    rcases h3 with h3 | h3
    · rw [h3]; exact f32_16777216
    · rw [h3]; exact f32_neg_16777216

/-- Rounding never takes an integer of at least `2^24` below `2^24`. -/
theorem le_f32 (x : Int) (h : 16777216 ≤ x) : 16777216 ≤ f32 x := by
  obtain ⟨a, rfl⟩ : ∃ a : Nat, x = (a : Int) := ⟨x.toNat, by omega⟩
  have ha : 2 ^ 24 ≤ a := by norm_num; omega
  have ha0 : a ≠ 0 := by omega
  have hlog : 24 ≤ Nat.log2 a := (Nat.le_log2 ha0).2 ha
  have hself : 2 ^ Nat.log2 a ≤ a := Nat.log2_self_le ha0
  obtain ⟨e, he⟩ : ∃ e, Nat.log2 a = e + 24 := ⟨Nat.log2 a - 24, by omega⟩
  have hu : 0 < 2 ^ (e + 1) := Nat.pos_pow_of_pos _ (by norm_num)
  have hq : 2 ^ 23 ≤ a / 2 ^ (e + 1) := by
    rw [Nat.le_div_iff_mul_le hu, ← pow_add]
    have : 23 + (e + 1) = Nat.log2 a := by omega
    rw [this]; exact hself
  have hmul : 2 ^ 24 ≤ a / 2 ^ (e + 1) * 2 ^ (e + 1) := by
    calc 2 ^ 24 = 2 ^ 23 * 2 ^ 1 := by norm_num
      _ ≤ 2 ^ 23 * 2 ^ (e + 1) :=
          Nat.mul_le_mul_left _ (Nat.pow_le_pow_right (by norm_num) (by omega))
      _ ≤ a / 2 ^ (e + 1) * 2 ^ (e + 1) := Nat.mul_le_mul_right _ hq
  have hmul' : 2 ^ 24 ≤ (a / 2 ^ (e + 1) + 1) * 2 ^ (e + 1) := by
    have := Nat.mul_le_mul_right (2 ^ (e + 1)) (Nat.le_succ (a / 2 ^ (e + 1)))
    exact le_trans hmul this
  have hsign : Int.sign (a : Int) = 1 := Int.sign_eq_one_of_pos (by omega)
  have hexp : Nat.log2 a - 23 = e + 1 := by omega
  have hnot : ¬ a < 2 ^ 24 := by omega
  simp only [f32, Int.natAbs_ofNat, hnot, if_false, hexp, hsign, one_mul]
  norm_num at hmul hmul' ⊢
  split_ifs <;> exact_mod_cast (by assumption)

/-! ## `Game::update`, field by field -/

theorem update_line (g : Game) :
    g.update.ball.line = addAssign g.ball.line g.ball.lineSpeed := rfl

theorem update_column (g : Game) :
    g.update.ball.column = addAssign g.ball.column g.ball.columnSpeed := rfl

theorem update_lineSpeed (g : Game) :
    g.update.ball.lineSpeed =
      if g.update.ball.line = g.maxRow ∨ g.update.ball.line = g.minRow
      then -g.ball.lineSpeed else g.ball.lineSpeed := by
  simp [Game.update]

theorem update_columnSpeed (g : Game) :
    g.update.ball.columnSpeed =
      if g.update.ball.column = g.maxCol ∨ g.update.ball.column = g.minCol
      then -g.ball.columnSpeed else g.ball.columnSpeed := by
  simp [Game.update]

theorem update_ping (g : Game) :
    g.update.ping = true ↔
      (g.update.ball.line = g.maxRow ∨ g.update.ball.line = g.minRow) ∨
      (g.update.ball.column = g.maxCol ∨ g.update.ball.column = g.minCol) := by
  simp [Game.update]

theorem update_bounds (g : Game) :
    g.update.minRow = g.minRow ∧ g.update.minCol = g.minCol ∧
    g.update.maxRow = g.maxRow ∧ g.update.maxCol = g.maxCol :=
  ⟨rfl, rfl, rfl, rfl⟩

theorem updateN_bounds (n : Nat) (g : Game) :
    (Game.updateN n g).minRow = g.minRow ∧ (Game.updateN n g).minCol = g.minCol ∧
    (Game.updateN n g).maxRow = g.maxRow ∧ (Game.updateN n g).maxCol = g.maxCol := by
  induction n with
  | zero => exact ⟨rfl, rfl, rfl, rfl⟩
  | succ k ih =>
    obtain ⟨h1, h2, h3, h4⟩ := ih
    obtain ⟨u1, u2, u3, u4⟩ := update_bounds (Game.updateN k g)
    exact ⟨u1.trans h1, u2.trans h2, u3.trans h3, u4.trans h4⟩

theorem addAssign_one (x : Int) (h1 : 1 ≤ x) (h2 : x < 16777216) :
    addAssign x 1 = x + 1 := by
  unfold addAssign
  rw [f32_of_abs_le x (by omega) (by omega), f32_of_abs_le (x + 1) (by omega) (by omega)]

theorem addAssign_one_stuck : addAssign 16777216 1 = 16777216 := by
  unfold addAssign
  rw [f32_16777216]
  exact f32_16777217

theorem addAssign_neg_one (x : Int) (h1 : 1 ≤ x) (h2 : x ≤ 16777216) :
    addAssign x (-1) = x - 1 := by
  unfold addAssign
  rw [f32_of_abs_le x (by omega) (by omega)]
  exact f32_of_abs_le (x + -1) (by omega) (by omega)

theorem bouncing_step (hi x v : Int) (h : Bouncing hi x v) :
    Bouncing hi (addAssign x v)
      (if addAssign x v = hi ∨ addAssign x v = 1 then -v else v) := by
  rcases h with ⟨hv, h1, h2, h3⟩ | ⟨hv, h1, h2, h3⟩
  · subst hv
    by_cases hx : x < 16777216
    · rw [addAssign_one x h1 hx]
      unfold Bouncing
      split_ifs with hb <;> omega
    · have hx' : x = 16777216 := by omega
      subst hx'
      rw [addAssign_one_stuck]
      unfold Bouncing
      split_ifs with hb <;> omega
  · subst hv
    rw [addAssign_neg_one x (by omega) h3]
    unfold Bouncing
    split_ifs with hb <;> omega

theorem bouncing_bounds (hi x v : Int) (h : Bouncing hi x v) : 1 ≤ x ∧ x ≤ hi := by
  unfold Bouncing at h
  omega

theorem updateN_bouncing (maxRow maxCol : Int) (ping0 : Bool)
    (hr : 2 ≤ maxRow) (hc : 2 ≤ maxCol) (n : Nat) :
    Bouncing maxRow (Game.updateN n (Game.init maxRow maxCol ping0)).ball.line
        (Game.updateN n (Game.init maxRow maxCol ping0)).ball.lineSpeed ∧
    Bouncing maxCol (Game.updateN n (Game.init maxRow maxCol ping0)).ball.column
        (Game.updateN n (Game.init maxRow maxCol ping0)).ball.columnSpeed := by
  induction n with
  | zero =>
    constructor
    · show Bouncing maxRow 1 1
      unfold Bouncing; omega
    · show Bouncing maxCol 1 1
      unfold Bouncing; omega
  | succ k ih =>
    obtain ⟨b1, b2, b3, b4⟩ := updateN_bounds k (Game.init maxRow maxCol ping0)
    have e1 : (Game.init maxRow maxCol ping0).minRow = 1 := rfl
    have e2 : (Game.init maxRow maxCol ping0).minCol = 1 := rfl
    have e3 : (Game.init maxRow maxCol ping0).maxRow = maxRow := rfl
    have e4 : (Game.init maxRow maxCol ping0).maxCol = maxCol := rfl
    simp only [Game.updateN]
    rw [update_lineSpeed, update_columnSpeed, update_line, update_column,
      b1, b2, b3, b4, e1, e2, e3, e4]
    exact ⟨bouncing_step _ _ _ ih.1, bouncing_step _ _ _ ih.2⟩

/-! ## One axis at speed two, started on an odd coordinate -/

theorem overshot_step (lo x : Int) (hlo : 0 ≤ lo) (h : Overshot lo x) :
    Overshot (lo + 2) (addAssign x 2) := by
  unfold addAssign
  rcases h with ⟨hodd, h1, h2⟩ | h
  · rw [f32_of_abs_le x (by omega) (by omega)]
    by_cases hx : x + 2 < 16777216
    · rw [f32_of_abs_le (x + 2) (by omega) (by omega)]
      left
      omega
    · have hx' : x + 2 = 16777217 := by omega
      rw [hx', f32_16777217]
      right
      omega
  · right
    have h1 := le_f32 x h
    exact le_f32 (f32 x + 2) (by omega)

theorem overshoot_row (n : Nat) :
    Overshot (1 + 2 * (n : Int)) (Game.updateN n overshootStart).ball.line ∧
    (Game.updateN n overshootStart).ball.lineSpeed = 2 := by
  induction n with
  | zero =>
    constructor
    · left
      show (1 : Int) % 2 = 1 ∧ 1 + 2 * ((0 : Nat) : Int) ≤ 1 ∧ (1 : Int) < 16777216
      omega
    · rfl
  | succ k ih =>
    obtain ⟨b1, -, b3, -⟩ := updateN_bounds k overshootStart
    have e1 : overshootStart.minRow = 1 := rfl
    have e3 : overshootStart.maxRow = 24 := rfl
    obtain ⟨ho, hv⟩ := ih
    have hstep := overshot_step _ _ (by omega) ho
    simp only [Game.updateN]
    rw [update_lineSpeed, update_line, b1, b3, e1, e3, hv]
    constructor
    · have hc : 1 + 2 * (((k + 1 : Nat)) : Int) = 1 + 2 * (k : Int) + 2 := by push_cast; ring
      rw [hc]
      exact hstep
    · have hne : ¬ (addAssign (Game.updateN k overshootStart).ball.line 2 = 24 ∨
          addAssign (Game.updateN k overshootStart).ball.line 2 = 1) := by
        unfold Overshot at hstep
        omega
      rw [if_neg hne]

/-! ## One axis whose upper bound is at most one -/

theorem degenerate_step (hi x : Int) (n : Nat) (hhi : hi ≤ 1)
    (hx : x = min (1 + (n : Int)) 16777216) :
    addAssign x 1 = min (1 + ((n + 1 : Nat) : Int)) 16777216 ∧
    (if addAssign x 1 = hi ∨ addAssign x 1 = 1 then (-1 : Int) else 1) = 1 := by
  have hx1 : 1 ≤ x := by omega
  have hx2 : x ≤ 16777216 := by omega
  have key : addAssign x 1 = min (1 + ((n + 1 : Nat) : Int)) 16777216 := by
    by_cases hlt : x < 16777216
    · rw [addAssign_one x hx1 hlt]
      push_cast
      omega
    · have : x = 16777216 := by omega
      rw [this, addAssign_one_stuck]
      push_cast
      omega
  refine ⟨key, ?_⟩
  have hne : ¬ (addAssign x 1 = hi ∨ addAssign x 1 = 1) := by
    rw [key]
    push_cast
    omega
  rw [if_neg hne]

theorem degenerate_row (maxRow maxCol : Int) (ping0 : Bool) (hr : maxRow ≤ 1) (n : Nat) :
    (Game.updateN n (Game.init maxRow maxCol ping0)).ball.line
      = min (1 + (n : Int)) 16777216 ∧
    (Game.updateN n (Game.init maxRow maxCol ping0)).ball.lineSpeed = 1 := by
  induction n with
  | zero =>
    constructor
    · show (1 : Int) = min (1 + ((0 : Nat) : Int)) 16777216
      norm_num
    · rfl
  | succ k ih =>
    obtain ⟨b1, -, b3, -⟩ := updateN_bounds k (Game.init maxRow maxCol ping0)
    have e1 : (Game.init maxRow maxCol ping0).minRow = 1 := rfl
    have e3 : (Game.init maxRow maxCol ping0).maxRow = maxRow := rfl
    obtain ⟨hx, hv⟩ := ih
    simp only [Game.updateN]
    rw [update_lineSpeed, update_line, b1, b3, e1, e3, hv]
    exact degenerate_step maxRow _ k hr hx

theorem degenerate_column (maxRow maxCol : Int) (ping0 : Bool) (hc : maxCol ≤ 1) (n : Nat) :
    (Game.updateN n (Game.init maxRow maxCol ping0)).ball.column
      = min (1 + (n : Int)) 16777216 ∧
    (Game.updateN n (Game.init maxRow maxCol ping0)).ball.columnSpeed = 1 := by
  induction n with
  | zero =>
    constructor
    · show (1 : Int) = min (1 + ((0 : Nat) : Int)) 16777216
      norm_num
    · rfl
  | succ k ih =>
    obtain ⟨-, b2, -, b4⟩ := updateN_bounds k (Game.init maxRow maxCol ping0)
    have e2 : (Game.init maxRow maxCol ping0).minCol = 1 := rfl
    have e4 : (Game.init maxRow maxCol ping0).maxCol = maxCol := rfl
    obtain ⟨hx, hv⟩ := ih
    simp only [Game.updateN]
    rw [update_columnSpeed, update_column, b2, b4, e2, e4, hv]
    exact degenerate_step maxCol _ k hc hx

/-! ## The update with a binary32 velocity -/

namespace Binary32

/-- What a defined `Game::update` returns, field by field. -/
theorem update_eq_some (g g' : Game) (h : g.update = some g') :
    addAssign g.ball.line g.ball.lineSpeed = some g'.ball.line ∧
    addAssign g.ball.column g.ball.columnSpeed = some g'.ball.column ∧
    g'.ball.lastLine = g.ball.line ∧ g'.ball.lastColumn = g.ball.column ∧
    g'.ball.lineSpeed =
      (if g'.ball.line = g.maxRow ∨ g'.ball.line = g.minRow
       then g.ball.lineSpeed.mulNegOne else g.ball.lineSpeed) ∧
    g'.ball.columnSpeed =
      (if g'.ball.column = g.maxCol ∨ g'.ball.column = g.minCol
       then g.ball.columnSpeed.mulNegOne else g.ball.columnSpeed) ∧
    (g'.ping = true ↔
      (g'.ball.line = g.maxRow ∨ g'.ball.line = g.minRow) ∨
      (g'.ball.column = g.maxCol ∨ g'.ball.column = g.minCol)) ∧
    g'.minRow = g.minRow ∧ g'.minCol = g.minCol ∧
    g'.maxRow = g.maxRow ∧ g'.maxCol = g.maxCol := by
  unfold Game.update at h
  split at h
  · rename_i line column hl hc
    simp only [Option.some.injEq] at h
    subst h
    simp [hl, hc]
  · exact absurd h (by simp)

/-- A `Game::update` whose two compound assignments are defined is defined. -/
theorem update_defined (g : Game) (line column : Int)
    (hl : addAssign g.ball.line g.ball.lineSpeed = some line)
    (hc : addAssign g.ball.column g.ball.columnSpeed = some column) :
    ∃ g', g.update = some g' := by
  unfold Game.update
  rw [hl, hc]
  exact ⟨_, rfl⟩

/-- On an integer the rounding and the conversion of this section agree with
`f32`. -/
theorem toInt_round32_int (N : Int) :
    toInt (decide (N < 0)) (round32 N.natAbs 0).1 (round32 N.natAbs 0).2 =
      if InIntRange (f32 N) then some (f32 N) else none := by
  by_cases hM : N.natAbs = 0
  · have hN : N = 0 := Int.natAbs_eq_zero.1 hM
    subst hN
    have h0 : f32 0 = 0 := f32_of_natAbs_lt 0 (by norm_num)
    rw [h0]
    simp [round32, toInt, InIntRange]
  · obtain ⟨L, hL⟩ : ∃ L, Nat.log2 N.natAbs = L := ⟨_, rfl⟩
    have hp : max ((L : Int) + 0 - 23) (-149) = (L : Int) - 23 := by omega
    by_cases hlt : N.natAbs < 2 ^ 24
    · have hL23 : L < 24 := by rw [← hL]; exact (Nat.log2_lt hM).2 hlt
      have hle : (L : Int) - 23 ≤ 0 := by omega
      have hr : round32 N.natAbs 0 = (N.natAbs * 2 ^ (23 - L), (L : Int) - 23) := by
        unfold round32
        rw [if_neg hM]
        simp only [hL, hp]
        rw [if_pos hle]
        have : (0 - ((L : Int) - 23)).toNat = 23 - L := by omega
        rw [this]
      have ht : (if 0 ≤ (L : Int) - 23 then N.natAbs * 2 ^ (23 - L) * 2 ^ ((L : Int) - 23).toNat
          else N.natAbs * 2 ^ (23 - L) / 2 ^ (-((L : Int) - 23)).toNat) = N.natAbs := by
        split_ifs with h0
        · have h1 : 23 - L = 0 := by omega
          have h2 : ((L : Int) - 23).toNat = 0 := by omega
          rw [h1, h2]
          simp
        · have h2 : (-((L : Int) - 23)).toNat = 23 - L := by omega
          rw [h2]
          exact Nat.mul_div_cancel _ (Nat.pos_pow_of_pos _ (by norm_num))
      have hi : (if decide (N < 0) = true then -((N.natAbs : Nat) : Int) else ((N.natAbs : Nat) : Int)) = N := by
        split_ifs with hneg
        · have : N < 0 := of_decide_eq_true hneg
          omega
        · have : ¬ N < 0 := fun h => hneg (decide_eq_true h)
          omega
      rw [hr, f32_of_natAbs_lt N hlt]
      unfold toInt
      simp only [ht, hi]
      rfl
    · have hL24 : 24 ≤ L := by
        rw [← hL]; exact (Nat.le_log2 hM).2 (by omega)
      have hgt : ¬ ((L : Int) - 23 ≤ 0) := by omega
      have hsh : ((L : Int) - 23 - 0).toNat = L - 23 := by omega
      have hsh' : ((L : Int) - 23).toNat = L - 23 := by omega
      have hpos : (0 : Int) ≤ (L : Int) - 23 := by omega
      have hsign : Int.sign N = if decide (N < 0) = true then -1 else 1 := by
        split_ifs with hneg
        · exact Int.sign_eq_neg_one_of_neg (of_decide_eq_true hneg)
        · have h1 : ¬ N < 0 := fun h => hneg (decide_eq_true h)
          exact Int.sign_eq_one_of_pos (by omega)
      have hf : f32 N = (if decide (N < 0) = true then -1 else 1) *
          (((round32 N.natAbs 0).1 * 2 ^ (L - 23) : Nat) : Int) := by
        unfold f32 round32
        simp only [if_neg hlt, if_neg hM, hL, hp, if_neg hgt, hsh, hsign]
      have hr2 : (round32 N.natAbs 0).2 = (L : Int) - 23 := by
        unfold round32
        simp only [if_neg hM, hL, hp, if_neg hgt]
      rw [hf]
      unfold toInt InIntRange
      simp only [hr2, if_pos hpos, hsh']
      generalize (round32 N.natAbs 0).1 * 2 ^ (L - 23) = T
      have hi : (if decide (N < 0) = true then -(T : Int) else (T : Int)) =
          (if decide (N < 0) = true then -1 else 1) * (T : Int) := by
        split_ifs <;> simp
      rw [hi]

theorem intValue_mulNegOne (v : Float32) (k : Int) (hv : v.intValue = some k) :
    v.mulNegOne.intValue = some (k * -1) := by
  cases v with
  | finite s m e =>
    by_cases he : 0 ≤ e
    · simp only [Float32.intValue, if_pos he, Option.some.injEq] at hv
      simp only [Float32.mulNegOne, Float32.intValue, if_pos he, Option.some.injEq]
      rw [← hv]
      cases s <;> simp
    · simp [Float32.intValue, he] at hv
  | inf s => simp [Float32.intValue] at hv
  | nan s => simp [Float32.intValue] at hv

/-- With an integer-valued velocity the compound assignment is the one of
the integer embedding, defined exactly when its result is an `int`. -/
theorem addAssign_intValue (i : Int) (v : Float32) (k : Int) (hv : v.intValue = some k) :
    addAssign i v =
      if InIntRange (PingPong.addAssign i k) then some (PingPong.addAssign i k) else none := by
  cases v with
  | finite s m e =>
    by_cases he : 0 ≤ e
    · simp only [Float32.intValue, if_pos he, Option.some.injEq] at hv
      have hmin : min e 0 = 0 := by omega
      have hN : f32 i * 2 ^ (0 - (0 : Int)).toNat +
          (if s = true then -1 else 1) * ((m * 2 ^ (e - 0).toNat : Nat) : Int) = f32 i + k := by
        rw [← hv]
        simp
      unfold addAssign
      simp only [hmin]
      rw [hN]
      exact toInt_round32_int (f32 i + k)
    · simp [Float32.intValue, he] at hv
  | inf s => simp [Float32.intValue] at hv
  | nan s => simp [Float32.intValue] at hv

theorem addAssign_intValue_some (i x : Int) (v : Float32) (k : Int)
    (hv : v.intValue = some k) (h : addAssign i v = some x) :
    x = PingPong.addAssign i k := by
  rw [addAssign_intValue i v k hv] at h
  split_ifs at h
  simp only [Option.some.injEq] at h
  exact h.symm

theorem toIntVelocity_eq_some (g : Game) (gi : PingPong.Game) (hg : g.toIntVelocity = some gi) :
    g.ball.lineSpeed.intValue = some gi.ball.lineSpeed ∧
    g.ball.columnSpeed.intValue = some gi.ball.columnSpeed ∧
    gi.ball.line = g.ball.line ∧ gi.ball.lastLine = g.ball.lastLine ∧
    gi.ball.column = g.ball.column ∧ gi.ball.lastColumn = g.ball.lastColumn ∧
    gi.minRow = g.minRow ∧ gi.minCol = g.minCol ∧
    gi.maxRow = g.maxRow ∧ gi.maxCol = g.maxCol ∧ gi.ping = g.ping := by
  unfold Game.toIntVelocity Ball.toIntVelocity at hg
  cases h1 : g.ball.lineSpeed.intValue with
  | none => simp [h1] at hg
  | some v =>
    cases h2 : g.ball.columnSpeed.intValue with
    | none => simp [h1, h2] at hg
    | some w =>
      simp only [h1, h2, Option.some.injEq] at hg
      subst hg
      exact ⟨rfl, rfl, rfl, rfl, rfl, rfl, rfl, rfl, rfl, rfl, rfl⟩

theorem game_ext (a b : PingPong.Game)
    (h1 : a.ball.line = b.ball.line) (h2 : a.ball.lastLine = b.ball.lastLine)
    (h3 : a.ball.column = b.ball.column) (h4 : a.ball.lastColumn = b.ball.lastColumn)
    (h5 : a.ball.lineSpeed = b.ball.lineSpeed) (h6 : a.ball.columnSpeed = b.ball.columnSpeed)
    (h7 : a.minRow = b.minRow) (h8 : a.minCol = b.minCol)
    (h9 : a.maxRow = b.maxRow) (h10 : a.maxCol = b.maxCol) (h11 : a.ping = b.ping) :
    a = b := by
  cases a with
  | mk ba _ _ _ _ _ =>
    cases b with
    | mk bb _ _ _ _ _ =>
      cases ba
      cases bb
      simp only at h1 h2 h3 h4 h5 h6 h7 h8 h9 h10 h11
      subst h1 h2 h3 h4 h5 h6 h7 h8 h9 h10 h11
      rfl

/-- The two embeddings of `Game::update` agree: on a game whose velocity is
integer-valued a defined update of this section is the update of the integer
embedding. -/
theorem update_refines (g g' : Game) (gi : PingPong.Game)
    (hg : g.toIntVelocity = some gi) (h : g.update = some g') :
    g'.toIntVelocity = some gi.update := by
  obtain ⟨v1, v2, e1, e2, e3, e4, e5, e6, e7, e8, e9⟩ := toIntVelocity_eq_some g gi hg
  obtain ⟨u1, u2, u3, u4, u5, u6, u7, u8, u9, u10, u11⟩ := update_eq_some g g' h
  have hline : g'.ball.line = gi.update.ball.line := by
    rw [PingPong.update_line, e1]
    exact addAssign_intValue_some _ _ _ _ v1 u1
  have hcol : g'.ball.column = gi.update.ball.column := by
    rw [PingPong.update_column, e3]
    exact addAssign_intValue_some _ _ _ _ v2 u2
  have hls : g'.ball.lineSpeed.intValue = some gi.update.ball.lineSpeed := by
    rw [u5, PingPong.update_lineSpeed, ← hline, e7, e5]
    split_ifs
    · have := intValue_mulNegOne _ _ v1
      rw [this]; simp
    · exact v1
  have hcs : g'.ball.columnSpeed.intValue = some gi.update.ball.columnSpeed := by
    rw [u6, PingPong.update_columnSpeed, ← hcol, e8, e6]
    split_ifs
    · have := intValue_mulNegOne _ _ v2
      rw [this]; simp
    · exact v2
  have hping : g'.ping = gi.update.ping := by
    have hp := PingPong.update_ping gi
    rw [← hline, ← hcol, e7, e8, e5, e6] at hp
    cases hb : g'.ping <;> cases hb2 : gi.update.ping <;> simp_all
  obtain ⟨b1, b2, b3, b4⟩ := PingPong.update_bounds gi
  unfold Game.toIntVelocity Ball.toIntVelocity
  simp only [hls, hcs]
  refine congrArg some (game_ext _ _ hline ?_ hcol ?_ rfl rfl ?_ ?_ ?_ ?_ hping)
  · show g'.ball.lastLine = gi.ball.line
    rw [u3, e1]
  · show g'.ball.lastColumn = gi.ball.column
    rw [u4, e3]
  · show g'.minRow = gi.update.minRow
    rw [u8, b1, e5]
  · show g'.minCol = gi.update.minCol
    rw [u9, b2, e6]
  · show g'.maxRow = gi.update.maxRow
    rw [u10, b3, e7]
  · show g'.maxCol = gi.update.maxCol
    rw [u11, b4, e8]

/-- On a game whose velocity is integer-valued the update of this section is
defined as soon as the coordinates the integer embedding computes are
`int`s. -/
theorem update_refines_defined (g : Game) (gi : PingPong.Game)
    (hg : g.toIntVelocity = some gi)
    (hl : InIntRange gi.update.ball.line) (hc : InIntRange gi.update.ball.column) :
    ∃ g', g.update = some g' ∧ g'.toIntVelocity = some gi.update := by
  obtain ⟨v1, v2, e1, e2, e3, e4, e5, e6, e7, e8, e9⟩ := toIntVelocity_eq_some g gi hg
  rw [PingPong.update_line, e1] at hl
  rw [PingPong.update_column, e3] at hc
  have h1 := addAssign_intValue g.ball.line _ _ v1
  have h2 := addAssign_intValue g.ball.column _ _ v2
  rw [if_pos hl] at h1
  rw [if_pos hc] at h2
  obtain ⟨g', hg'⟩ := update_defined g _ _ h1 h2
  exact ⟨g', hg', update_refines g g' gi hg hg'⟩

/-- The startup game of this section is the startup game of the integer
embedding. -/
theorem init_toIntVelocity (ws_row ws_col : Int) (ping0 : Bool) :
    (Game.init ws_row ws_col ping0).toIntVelocity =
      some (PingPong.Game.init ws_row ws_col ping0) := by
  rfl

end Binary32

/-! ## The claims -/

/-- C1, boundary invariant: in a viewport with `minRow = 1`, `minCol = 1`,
`maxRow ≥ 2` and `maxCol ≥ 2`, the ball reached from the startup ball by any
number `n` of calls of `Game::update` has `minRow ≤ line ≤ maxRow` and
`minCol ≤ column ≤ maxCol`. -/
theorem ball_stays_in_bounds (maxRow maxCol : Int) (ping0 : Bool)
    (hr : 2 ≤ maxRow) (hc : 2 ≤ maxCol) (n : Nat) :
    (Game.updateN n (Game.init maxRow maxCol ping0)).minRow = 1 ∧
    (Game.updateN n (Game.init maxRow maxCol ping0)).minCol = 1 ∧
    (Game.updateN n (Game.init maxRow maxCol ping0)).maxRow = maxRow ∧
    (Game.updateN n (Game.init maxRow maxCol ping0)).maxCol = maxCol ∧
    1 ≤ (Game.updateN n (Game.init maxRow maxCol ping0)).ball.line ∧
    (Game.updateN n (Game.init maxRow maxCol ping0)).ball.line ≤ maxRow ∧
    1 ≤ (Game.updateN n (Game.init maxRow maxCol ping0)).ball.column ∧
    (Game.updateN n (Game.init maxRow maxCol ping0)).ball.column ≤ maxCol := by
  obtain ⟨b1, b2, b3, b4⟩ := updateN_bounds n (Game.init maxRow maxCol ping0)
  obtain ⟨hl, hcol⟩ := updateN_bouncing maxRow maxCol ping0 hr hc n
  obtain ⟨l1, l2⟩ := bouncing_bounds _ _ _ hl
  obtain ⟨c1, c2⟩ := bouncing_bounds _ _ _ hcol
  exact ⟨b1, b2, b3, b4, l1, l2, c1, c2⟩

/-- C1 at a 24 × 80 terminal after 100 updates. -/
theorem ball_stays_in_bounds_witness :
    (2 : Int) ≤ 24 ∧ (2 : Int) ≤ 80 ∧
    1 ≤ (Game.updateN 100 (Game.init 24 80 false)).ball.line ∧
    (Game.updateN 100 (Game.init 24 80 false)).ball.line ≤ 24 ∧
    1 ≤ (Game.updateN 100 (Game.init 24 80 false)).ball.column ∧
    (Game.updateN 100 (Game.init 24 80 false)).ball.column ≤ 80 :=
  ⟨by decide, by decide,
    (ball_stays_in_bounds 24 80 false (by decide) (by decide) 100).2.2.2.2⟩

/-- C4 as stated fails: the ball of `farBelow` is on line `2^24` with
`lineSpeed = 1`; the sum `2^24 + 1` is not a `float`, the update leaves the
ball on line `2^24`, which is not the old line plus the old `lineSpeed`. -/
theorem update_postcondition_fails_far_out :
    farBelow.ball.line = 16777216 ∧ farBelow.ball.lineSpeed = 1 ∧
    farBelow.update.ball.line = 16777216 ∧
    farBelow.update.ball.line ≠ farBelow.ball.line + farBelow.ball.lineSpeed := by
  have h : farBelow.update.ball.line = 16777216 := by
    rw [update_line]
    exact addAssign_one_stuck
  refine ⟨rfl, rfl, h, ?_⟩
  rw [h]
  decide

/-- C4, amended, update postcondition: for every game whose old coordinates
and whose old coordinates plus the old velocity components all have
magnitude at most `2^24` (where `float` arithmetic on them is exact), after
`Game::update` `(lastLine, lastColumn)` is the old position, `line` is the old
line plus the old `lineSpeed` and `column` the old column plus the old
`columnSpeed`, each axis's velocity component is negated exactly when that
axis's new coordinate equals its minimum or maximum bound and is otherwise
unchanged, and the four bounds are unchanged.  In particular a ball at
`(23, 40)` with velocity `(1, 0)` and `maxRow = 24` ends at `(24, 40)` with
`lineSpeed = -1` and `ping = true`. -/
theorem update_postcondition (g : Game)
    (hl : -16777216 ≤ g.ball.line ∧ g.ball.line ≤ 16777216)
    (hl' : -16777216 ≤ g.ball.line + g.ball.lineSpeed ∧
      g.ball.line + g.ball.lineSpeed ≤ 16777216)
    (hc : -16777216 ≤ g.ball.column ∧ g.ball.column ≤ 16777216)
    (hc' : -16777216 ≤ g.ball.column + g.ball.columnSpeed ∧
      g.ball.column + g.ball.columnSpeed ≤ 16777216) :
    (g.update.ball.lastLine = g.ball.line ∧
     g.update.ball.lastColumn = g.ball.column ∧
     g.update.ball.line = g.ball.line + g.ball.lineSpeed ∧
     g.update.ball.column = g.ball.column + g.ball.columnSpeed ∧
     g.update.ball.lineSpeed =
       (if g.ball.line + g.ball.lineSpeed = g.minRow ∨
           g.ball.line + g.ball.lineSpeed = g.maxRow
        then -g.ball.lineSpeed else g.ball.lineSpeed) ∧
     g.update.ball.columnSpeed =
       (if g.ball.column + g.ball.columnSpeed = g.minCol ∨
           g.ball.column + g.ball.columnSpeed = g.maxCol
        then -g.ball.columnSpeed else g.ball.columnSpeed) ∧
     g.update.minRow = g.minRow ∧ g.update.minCol = g.minCol ∧
     g.update.maxRow = g.maxRow ∧ g.update.maxCol = g.maxCol) ∧
    (∀ (lastLine lastColumn minRow minCol maxCol : Int) (ping : Bool),
      (Game.update
        { ball := { line := 23, lastLine := lastLine, column := 40,
                    lastColumn := lastColumn, lineSpeed := 1, columnSpeed := 0 },
          minRow := minRow, minCol := minCol, maxRow := 24, maxCol := maxCol,
          ping := ping }).ball.line = 24 ∧
      (Game.update
        { ball := { line := 23, lastLine := lastLine, column := 40,
                    lastColumn := lastColumn, lineSpeed := 1, columnSpeed := 0 },
          minRow := minRow, minCol := minCol, maxRow := 24, maxCol := maxCol,
          ping := ping }).ball.column = 40 ∧
      (Game.update
        { ball := { line := 23, lastLine := lastLine, column := 40,
                    lastColumn := lastColumn, lineSpeed := 1, columnSpeed := 0 },
          minRow := minRow, minCol := minCol, maxRow := 24, maxCol := maxCol,
          ping := ping }).ball.lineSpeed = -1 ∧
      (Game.update
        { ball := { line := 23, lastLine := lastLine, column := 40,
                    lastColumn := lastColumn, lineSpeed := 1, columnSpeed := 0 },
          minRow := minRow, minCol := minCol, maxRow := 24, maxCol := maxCol,
          ping := ping }).ping = true) := by
  have el : g.update.ball.line = g.ball.line + g.ball.lineSpeed := by
    rw [update_line]
    unfold addAssign
    rw [f32_of_abs_le _ hl.1 hl.2, f32_of_abs_le _ hl'.1 hl'.2]
  have ec : g.update.ball.column = g.ball.column + g.ball.columnSpeed := by
    rw [update_column]
    unfold addAssign
    rw [f32_of_abs_le _ hc.1 hc.2, f32_of_abs_le _ hc'.1 hc'.2]
  have e1 : (g.ball.line + g.ball.lineSpeed = g.minRow ∨
      g.ball.line + g.ball.lineSpeed = g.maxRow) ↔
      (g.ball.line + g.ball.lineSpeed = g.maxRow ∨
      g.ball.line + g.ball.lineSpeed = g.minRow) := or_comm
  have e2 : (g.ball.column + g.ball.columnSpeed = g.minCol ∨
      g.ball.column + g.ball.columnSpeed = g.maxCol) ↔
      (g.ball.column + g.ball.columnSpeed = g.maxCol ∨
      g.ball.column + g.ball.columnSpeed = g.minCol) := or_comm
  refine ⟨⟨rfl, rfl, el, ec, ?_, ?_, rfl, rfl, rfl, rfl⟩, ?_⟩
  · rw [update_lineSpeed, el]
    exact if_congr e1.symm rfl rfl
  · rw [update_columnSpeed, ec]
    exact if_congr e2.symm rfl rfl
  · intro lastLine lastColumn minRow minCol maxCol ping
    have a1 : addAssign 23 1 = 24 := by decide
    have a2 : addAssign 40 0 = 40 := by decide
    simp [Game.update, a1, a2]

/-- C4 at the startup game of a 24 × 80 terminal. -/
theorem update_postcondition_witness :
    (Game.init 24 80 false).update.ball.lastLine = 1 ∧
    (Game.init 24 80 false).update.ball.lastColumn = 1 ∧
    (Game.init 24 80 false).update.ball.line = 1 + 1 ∧
    (Game.init 24 80 false).update.ball.column = 1 + 1 :=
  have h := (update_postcondition (Game.init 24 80 false)
    (by decide) (by decide) (by decide) (by decide)).1
  ⟨h.1, h.2.1, h.2.2.1, h.2.2.2.1⟩

set_option maxRecDepth 100000 in
/-- C5 as stated fails: from the startup ball in bounds `(1, 1, 24, 80)` the
line is `24` for the first time after 23 updates, and the next update, the
24th, moves the ball back to line `23` with `ping = false`. -/
theorem scenario_a_next_update_has_no_bounce :
    (∀ n, n < 23 → (Game.updateN n (Game.init 24 80 false)).ball.line ≠ 24) ∧
    (Game.updateN 23 (Game.init 24 80 false)).ball.line = 24 ∧
    (Game.updateN 24 (Game.init 24 80 false)).ball.line = 23 ∧
    (Game.updateN 24 (Game.init 24 80 false)).ping = false := by
  decide

set_option maxRecDepth 100000 in
/-- C5, amended, scenario A: with bounds `(1, 1, 24, 80)` and the ball starting
at `(1, 1)` with velocity `(1, 1)`, after one update the position is `(2, 2)`
and `ping` is false; the line is `23` for the first time after 22 updates, and
the next update, the 23rd, puts the ball on line `24` with `ping = true` and
`lineSpeed = -1`. -/
theorem scenario_a (ping0 : Bool) :
    (Game.init 24 80 ping0).minRow = 1 ∧ (Game.init 24 80 ping0).minCol = 1 ∧
    (Game.init 24 80 ping0).maxRow = 24 ∧ (Game.init 24 80 ping0).maxCol = 80 ∧
    (Game.init 24 80 ping0).ball.line = 1 ∧ (Game.init 24 80 ping0).ball.column = 1 ∧
    (Game.init 24 80 ping0).ball.lineSpeed = 1 ∧
    (Game.init 24 80 ping0).ball.columnSpeed = 1 ∧
    (Game.updateN 1 (Game.init 24 80 ping0)).ball.line = 2 ∧
    (Game.updateN 1 (Game.init 24 80 ping0)).ball.column = 2 ∧
    (Game.updateN 1 (Game.init 24 80 ping0)).ping = false ∧
    (∀ n, n < 22 → (Game.updateN n (Game.init 24 80 ping0)).ball.line ≠ 23) ∧
    (Game.updateN 22 (Game.init 24 80 ping0)).ball.line = 23 ∧
    (Game.updateN 23 (Game.init 24 80 ping0)).ball.line = 24 ∧
    (Game.updateN 23 (Game.init 24 80 ping0)).ping = true ∧
    (Game.updateN 23 (Game.init 24 80 ping0)).ball.lineSpeed = -1 := by
  cases ping0 <;> decide

/-- C6, input exit law: for every sampled key `c`, `Input::handle` returns
`Stop` if and only if `c = 27` and `Continue` for every other value, the
value `-1` of "no key available" included, and it leaves the game as it
was. -/
theorem input_exit_law (game : Game) (c : Int) :
    ((Input.handle game c).1 = ProgramState.Stop ↔ c = 27) ∧
    ((Input.handle game c).1 = ProgramState.Continue ↔ c ≠ 27) ∧
    (Input.handle game (-1)).1 = ProgramState.Continue ∧
    (Input.handle game c).2 = game := by
  unfold Input.handle
  refine ⟨?_, ?_, ?_, ?_⟩
  · by_cases h : c = 27 <;> simp [h]
  · by_cases h : c = 27 <;> simp [h]
  · simp
  · by_cases h : c = 27 <;> simp [h]

/-- C7, one iteration of the loop of `main`: when the sampled key is `27` the
iteration leaves the loop with the game unchanged, having called only
`Frame::limit` and `Input::handle` (no update, no audio, no draw); for every
other key it calls `Game::update` once, then `Audio::Play` exactly when `ping`
is true after that update, then `Render::draw` once with the updated ball, in
that order, and the loop continues. -/
theorem loop_iteration (game : Game) (c : Int) :
    (c = 27 →
      mainLoopBody game c = (ProgramState.Stop, game, [Call.limit, Call.handle])) ∧
    (c ≠ 27 → game.update.ping = true →
      mainLoopBody game c =
        (ProgramState.Continue, game.update,
          [Call.limit, Call.handle, Call.update, Call.Play, Call.draw game.update.ball])) ∧
    (c ≠ 27 → game.update.ping = false →
      mainLoopBody game c =
        (ProgramState.Continue, game.update,
          [Call.limit, Call.handle, Call.update, Call.draw game.update.ball])) := by
  refine ⟨?_, ?_, ?_⟩
  · intro h
    simp [mainLoopBody, Input.handle, h]
  · intro h hp
    simp [mainLoopBody, Input.handle, h, hp]
  · intro h hp
    simp [mainLoopBody, Input.handle, h, hp]

/-- C7 at the startup game of a 2 × 80 terminal (whose first update bounces)
and of a 24 × 80 terminal (whose first update does not), for the escape key
and for "no key". -/
theorem loop_iteration_witness :
    mainLoopBody (Game.init 2 80 false) 27 =
      (ProgramState.Stop, Game.init 2 80 false, [Call.limit, Call.handle]) ∧
    mainLoopBody (Game.init 2 80 false) (-1) =
      (ProgramState.Continue, (Game.init 2 80 false).update,
        [Call.limit, Call.handle, Call.update, Call.Play,
          Call.draw (Game.init 2 80 false).update.ball]) ∧
    mainLoopBody (Game.init 24 80 false) (-1) =
      (ProgramState.Continue, (Game.init 24 80 false).update,
        [Call.limit, Call.handle, Call.update,
          Call.draw (Game.init 24 80 false).update.ball]) :=
  ⟨(loop_iteration (Game.init 2 80 false) 27).1 rfl,
   (loop_iteration (Game.init 2 80 false) (-1)).2.1 (by decide) (by decide),
   (loop_iteration (Game.init 24 80 false) (-1)).2.2 (by decide) (by decide)⟩

/-- C8, audio safety: for every audio object the constructor builds and every
value `r` of the random source, the vector has exactly three slots, `Play`
selects the index `r mod 3`, which is a valid index (the call is defined: no
remainder by zero, no access out of range), and with `p` the pointer in that
slot the call leaves the object as it was and triggers no playback when `p`
is null and exactly one playback, of `p`, otherwise. -/
theorem audio_play_safe (err : Int) (wav1 wav2 wav3 : MixChunkPtr) (a : Audio)
    (h : Audio.ctor err wav1 wav2 wav3 = Except.ok a) (r : Nat) :
    a.pings = [wav1, wav2, wav3] ∧ a.pings.length = 3 ∧
    r % a.pings.length = r % 3 ∧ r % 3 < a.pings.length ∧
    ∃ p, a.pings[r % 3]? = some p ∧
      (p = 0 → a.Play r = some (a, [])) ∧
      (p ≠ 0 → a.Play r = some (a, [{ channel := -1, chunk := p, loops := 0 }])) := by
  have hp : a.pings = [wav1, wav2, wav3] := by
    unfold Audio.ctor at h
    split_ifs at h with he
    injection h with h
    rw [← h]
    rfl
  have hlen : a.pings.length = 3 := by rw [hp]; rfl
  have hlt : r % 3 < a.pings.length := by rw [hlen]; exact Nat.mod_lt _ (by norm_num)
  refine ⟨hp, hlen, by rw [hlen], hlt, a.pings[r % 3], List.getElem?_eq_getElem hlt, ?_, ?_⟩
  · intro h0
    simp [Audio.Play, hlen, List.getElem?_eq_getElem hlt, h0]
  · intro h0
    simp [Audio.Play, hlen, List.getElem?_eq_getElem hlt, h0]

/-- C8 with the first and third sample missing: `r = 7` selects the loaded
second sample. -/
theorem audio_play_safe_witness :
    Audio.ctor 0 0 5 0 = Except.ok { pings := [0, 5, 0] } ∧
    ∃ p, ([0, 5, 0] : List MixChunkPtr)[7 % 3]? = some p ∧
      (p = 0 → Audio.Play { pings := [0, 5, 0] } 7 = some ({ pings := [0, 5, 0] }, [])) ∧
      (p ≠ 0 → Audio.Play { pings := [0, 5, 0] } 7 =
        some ({ pings := [0, 5, 0] }, [{ channel := -1, chunk := p, loops := 0 }])) :=
  ⟨rfl, (audio_play_safe 0 0 5 0 { pings := [0, 5, 0] } rfl 7).2.2.2.2⟩

/-- C9, overshoot: in bounds `(1, 1, 24, 80)` the ball that starts at `(1, 1)`,
inside the bounds, with velocity `(2, 2)` never lands its line on `minRow` or
`maxRow` in any update, so the row axis never reflects (`lineSpeed` stays `2`
and the row test of `ping` is false in every update), and from the 12th update
on the line stays beyond `maxRow`. -/
theorem overshoot_never_reflects :
    (overshootStart.minRow = 1 ∧ overshootStart.minCol = 1 ∧
      overshootStart.maxRow = 24 ∧ overshootStart.maxCol = 80 ∧
      overshootStart.ball.line = 1 ∧ overshootStart.ball.column = 1 ∧
      overshootStart.ball.lineSpeed = 2 ∧ overshootStart.ball.columnSpeed = 2) ∧
    (∀ n : Nat, 1 ≤ n →
      (Game.updateN n overshootStart).ball.line ≠ (Game.updateN n overshootStart).minRow ∧
      (Game.updateN n overshootStart).ball.line ≠ (Game.updateN n overshootStart).maxRow) ∧
    (∀ n : Nat, (Game.updateN n overshootStart).ball.lineSpeed = 2) ∧
    (∃ N : Nat, ∀ n : Nat, N ≤ n →
      (Game.updateN n overshootStart).maxRow < (Game.updateN n overshootStart).ball.line) := by
  have e1 : overshootStart.minRow = 1 := rfl
  have e3 : overshootStart.maxRow = 24 := rfl
  refine ⟨⟨rfl, rfl, rfl, rfl, rfl, rfl, rfl, rfl⟩, ?_, fun n => (overshoot_row n).2, 12, ?_⟩
  · intro n hn
    obtain ⟨b1, -, b3, -⟩ := updateN_bounds n overshootStart
    have h := (overshoot_row n).1
    rw [b1, b3, e1, e3]
    unfold Overshot at h
    omega
  · intro n hn
    obtain ⟨-, -, b3, -⟩ := updateN_bounds n overshootStart
    have h := (overshoot_row n).1
    rw [b3, e3]
    unfold Overshot at h
    omega

/-- C10 as stated fails: in a one-row viewport the line of the startup ball
after `2^24` updates is `2^24`, not `1 + 2^24`: the sum `2^24 + 1` is not a
`float` and the ball stays on line `2^24`. -/
theorem degenerate_line_stalls :
    (Game.updateN 16777216 (Game.init 1 80 false)).ball.line = 16777216 ∧
    (Game.updateN 16777216 (Game.init 1 80 false)).ball.line
      ≠ 1 + ((16777216 : Nat) : Int) := by
  have h := (degenerate_row 1 80 false (le_refl 1) 16777216).1
  have hm : min (1 + ((16777216 : Nat) : Int)) 16777216 = 16777216 := by norm_num
  rw [hm] at h
  refine ⟨h, ?_⟩
  rw [h]
  norm_num

/-- C10, amended, degenerate viewport: for every viewport with `minRow = 1`
and `maxRow ≤ 1`, starting from the startup ball, after every `n ≥ 1` calls of
`Game::update` the ball has `line = min (1 + n) 2^24` (so `line = 1 + n` as
long as `n < 2^24`) and `lineSpeed = 1`, and its line is beyond `maxRow`: the
row axis never reflects and the ball is outside `[minRow, maxRow]` from the
first update on.  The same holds for the column axis when `maxCol ≤ 1`. -/
theorem degenerate_viewport (maxRow maxCol : Int) (ping0 : Bool) (n : Nat) (hn : 1 ≤ n) :
    (maxRow ≤ 1 →
      (Game.updateN n (Game.init maxRow maxCol ping0)).minRow = 1 ∧
      (Game.updateN n (Game.init maxRow maxCol ping0)).maxRow = maxRow ∧
      (Game.updateN n (Game.init maxRow maxCol ping0)).ball.line
        = min (1 + (n : Int)) 16777216 ∧
      (n < 16777216 →
        (Game.updateN n (Game.init maxRow maxCol ping0)).ball.line = 1 + (n : Int)) ∧
      (Game.updateN n (Game.init maxRow maxCol ping0)).ball.lineSpeed = 1 ∧
      maxRow < (Game.updateN n (Game.init maxRow maxCol ping0)).ball.line) ∧
    (maxCol ≤ 1 →
      (Game.updateN n (Game.init maxRow maxCol ping0)).minCol = 1 ∧
      (Game.updateN n (Game.init maxRow maxCol ping0)).maxCol = maxCol ∧
      (Game.updateN n (Game.init maxRow maxCol ping0)).ball.column
        = min (1 + (n : Int)) 16777216 ∧
      (n < 16777216 →
        (Game.updateN n (Game.init maxRow maxCol ping0)).ball.column = 1 + (n : Int)) ∧
      (Game.updateN n (Game.init maxRow maxCol ping0)).ball.columnSpeed = 1 ∧
      maxCol < (Game.updateN n (Game.init maxRow maxCol ping0)).ball.column) := by
  obtain ⟨b1, b2, b3, b4⟩ := updateN_bounds n (Game.init maxRow maxCol ping0)
  constructor
  · intro hr
    obtain ⟨hx, hv⟩ := degenerate_row maxRow maxCol ping0 hr n
    refine ⟨b1, b3, hx, ?_, hv, ?_⟩
    · intro hlt
      rw [hx]
      omega
    · rw [hx]
      omega
  · intro hc
    obtain ⟨hx, hv⟩ := degenerate_column maxRow maxCol ping0 hc n
    refine ⟨b2, b4, hx, ?_, hv, ?_⟩
    · intro hlt
      rw [hx]
      omega
    · rw [hx]
      omega

/-- C10 at a terminal of one row and one column after three updates: the
ball is at `(4, 4)`, still moving away. -/
theorem degenerate_viewport_witness :
    (Game.updateN 3 (Game.init 1 1 false)).ball.line = 1 + ((3 : Nat) : Int) ∧
    (Game.updateN 3 (Game.init 1 1 false)).ball.lineSpeed = 1 ∧
    (1 : Int) < (Game.updateN 3 (Game.init 1 1 false)).ball.line ∧
    (Game.updateN 3 (Game.init 1 1 false)).ball.column = 1 + ((3 : Nat) : Int) ∧
    (Game.updateN 3 (Game.init 1 1 false)).ball.columnSpeed = 1 ∧
    (1 : Int) < (Game.updateN 3 (Game.init 1 1 false)).ball.column :=
  have h := degenerate_viewport 1 1 false 3 (by decide)
  have hr := h.1 (by decide)
  have hc := h.2 (by decide)
  ⟨hr.2.2.2.1 (by decide), hr.2.2.2.2.1, hr.2.2.2.2.2,
   hc.2.2.2.1 (by decide), hc.2.2.2.2.1, hc.2.2.2.2.2⟩

end PingPong
